import Mathlib

/-!
# MedNeutral core engine: shallow embedding and verification

Shallow embedding of the detection-and-rewrite engine of the MedNeutral
repository (`src/core/stigma_classifier.py`, `src/core/bert_enhanced_classifier.py`,
`src/core/hybrid_processor.py`).

Modelling conventions:
* Text is `List Char` (`Str`); Python string slicing/indexing becomes `take`/`drop`.
* Python `float` scores are modelled as `ℚ` (all constants in the source are
  exact decimals).
* The external BERT embedding capability is treated as an abstract similarity
  oracle `sim : Str → Str → ℚ` (the code computes cosine similarity between
  embedding vectors; everything downstream only consumes the resulting number).
* The keyword catalog is loaded from a JSON file at runtime; the engine is
  parametric over it (`Catalog`), matching the loaded `keyword_dict`.
* Python `re` patterns of the form `\b(w1|w2|...)\b` with `re.IGNORECASE`,
  scanned by `finditer`, are modelled faithfully: leftmost scan, first
  alternative (in list order) that matches wins, word boundaries on both
  sides, continue after the end of each match.
* Exceptions are modelled with `Except`.
-/

namespace MedNeutral

/-- Text is modelled as a list of characters. -/
abbrev Str := List Char

/-- Python `str.lower()` (ASCII case folding, as used throughout the source). -/
def lower (s : Str) : Str := s.map Char.toLower

/-- A regex word character (`\w` over ASCII): letter, digit or underscore. -/
def isWordChar (c : Char) : Bool := c.isAlpha || c.isDigit || c == '_'

/-- Whether position `i` of `t` holds a word character (out of range: no). -/
def wordCharAt (t : Str) (i : Nat) : Bool :=
  match t.get? i with
  | some c => isWordChar c
  | none => false

/-- Python `re` word boundary `\b` at position `i`: the word-character status
changes between positions `i-1` and `i` (positions outside the text count as
non-word). -/
def boundaryAt (t : Str) (i : Nat) : Bool :=
  (if i = 0 then false else wordCharAt t (i - 1)) != wordCharAt t i

/-- The slice `t[a:b]` of Python (for `a ≤ b`; clipped to the text). -/
def slice (t : Str) (a b : Nat) : Str := (t.drop a).take (b - a)

/-- Does keyword `w` match at position `i` of `t`, in the sense of the compiled
pattern `\b(...|w|...)\b` with `re.IGNORECASE`: word boundary before and after,
and the corresponding slice equal to `w` up to case. -/
def matchesAt (t : Str) (i : Nat) (w : Str) : Bool :=
  boundaryAt t i && boundaryAt t (i + w.length) &&
    (lower (slice t i (i + w.length)) == lower w)

/-- The first alternative of the pattern (in keyword-list order) matching at
position `i`, as Python's regex alternation tries alternatives left to right. -/
def altAt (t : Str) (i : Nat) (ws : List Str) : Option Str :=
  ws.find? (fun w => matchesAt t i w)

/-- `re.finditer` scan for pattern `\b(ws…)\b`: walk positions left to right,
emit `(start, length)` for each match, resume after the match end.
`fuel` bounds the recursion (`t.length + 1` suffices). -/
def scanFrom (t : Str) (ws : List Str) : Nat → Nat → List (Nat × Nat)
  | _, 0 => []
  | i, fuel + 1 =>
    match altAt t i ws with
    | some w => (i, w.length) :: scanFrom t ws (i + (if w.length = 0 then 1 else w.length)) fuel
    | none => scanFrom t ws (i + 1) fuel

/-- The alternatives of the compiled pattern for a keyword list:
`'|'.join([])` is the empty string, so an empty category list compiles to
`\b()\b`, whose single alternative is the empty literal. -/
def patternAlts (ws : List Str) : List Str :=
  if ws.isEmpty then [[]] else ws

/-- All matches of the keyword list `ws` in `t`, as `(start, length)` pairs. -/
def scanText (t : Str) (ws : List Str) : List (Nat × Nat) :=
  scanFrom t (patternAlts ws) 0 (t.length + 1)

/-- A category→keywords mapping, in file/insertion order
(the loaded `keyword_dict` of `StigmaClassifier.__init__`). -/
abbrev Catalog := List (String × List Str)

/-- Whether some compiled catalog pattern matches anywhere in `t` — i.e.
whether `t` contains a catalog keyword (as a case-insensitive whole word).
Match positions never exceed `t.length`, so the bounded scan is exhaustive. -/
def hasKeywordOccurrence (catalog : Catalog) (t : Str) : Bool :=
  catalog.any (fun cw =>
    (List.range (t.length + 1)).any (fun i =>
      (patternAlts cw.2).any (fun w => matchesAt t i w)))

/-- `StigmaMatch` of `stigma_classifier.py`. -/
structure StigmaMatch where
  original_text : Str
  start_pos : Nat
  end_pos : Nat
  category : String
  confidence : ℚ
  context : Str
deriving DecidableEq, Inhabited

/-- The context window of a match: `text[max(0, start-50) : min(len, end+50)]`. -/
def contextOf (t : Str) (s e : Nat) : Str := slice t (s - 50) (min t.length (e + 50))

/-- `StigmaClassifier.detect_stigma`: for each category (in catalog order) scan
the text with that category's pattern and collect matches, with context window
and confidence 1.0. -/
def detect_stigma (catalog : Catalog) (t : Str) : List StigmaMatch :=
  (catalog.map (fun cw =>
    (scanText t cw.2).map (fun sl =>
      { original_text := slice t sl.1 (sl.1 + sl.2)
        start_pos := sl.1
        end_pos := sl.1 + sl.2
        category := cw.1
        confidence := 1
        context := contextOf t sl.1 (sl.1 + sl.2) }))).flatten

/-- `StigmaClassifier.get_stigma_categories`: the distinct categories of the
matches (Python builds `list(set(...))`; we model the set as first-occurrence
deduplication). -/
def get_stigma_categories (catalog : Catalog) (t : Str) : List String :=
  ((detect_stigma catalog t).map (·.category)).eraseDups

/-! ## Stable descending sort

Both rewrite loops run `matches.sort(key=lambda x: x.start_pos, reverse=True)`.
Python's sort is stable; `reverse=True` sorts descending while equal keys keep
their original relative order.  We model it as a stable insertion sort: an
element is inserted before the first element whose key is `≤` its own, so a
later element never jumps ahead of an equal earlier one. -/

/-- Insert `x` into `l` for the stable descending sort on `key`. -/
def insD {α β : Type _} [LinearOrder β] (key : α → β) (x : α) : List α → List α
  | [] => [x]
  | y :: ys => if key y ≤ key x then x :: y :: ys else y :: insD key x ys

/-- Stable descending sort on `key` (model of `sort(key=…, reverse=True)`). -/
def sortD {α β : Type _} [LinearOrder β] (key : α → β) : List α → List α
  | [] => []
  | x :: xs => insD key x (sortD key xs)

/-! ## Rule-based rewriter (`StigmaRewriter`) -/

/-- Association-list lookup (model of Python `dict` lookup; the embedded dicts
have distinct keys, so first match equals the dict entry). -/
def alookup {κ γ : Type _} [BEq κ] (k : κ) (l : List (κ × γ)) : Option γ :=
  (l.find? (fun p => p.1 == k)).map (·.2)

/-- Shorthand for writing embedded word tables. -/
def ofS (s : String) : Str := s.data

/-- The static `self.replacements` table of `StigmaRewriter.__init__`,
category by category in source order. -/
def replacements : List (String × List (Str × Str)) :=
  [ ("adamant",
      [ (ofS "adamant", ofS "firm"), (ofS "adamantly", ofS "firmly"),
        (ofS "adament", ofS "firm"), (ofS "adamently", ofS "firmly"),
        (ofS "claim", ofS "report"), (ofS "claimed", ofS "reported"),
        (ofS "claiming", ofS "reporting"), (ofS "claims", ofS "reports"),
        (ofS "insist", ofS "state"), (ofS "insisted", ofS "stated"),
        (ofS "insistence", ofS "statement"), (ofS "insisting", ofS "stating"),
        (ofS "insists", ofS "states") ]),
    ("compliance",
      [ (ofS "adherance", ofS "adherence"), (ofS "adhere", ofS "follow"),
        (ofS "adhered", ofS "followed"), (ofS "adherence", ofS "compliance"),
        (ofS "adherent", ofS "compliant"), (ofS "adheres", ofS "follows"),
        (ofS "adhering", ofS "following"), (ofS "compliance", ofS "adherence"),
        (ofS "compliant", ofS "adherent"), (ofS "complied", ofS "followed"),
        (ofS "complies", ofS "follows"), (ofS "comply", ofS "follow"),
        (ofS "complying", ofS "following"), (ofS "declined", ofS "did not accept"),
        (ofS "declines", ofS "does not accept"), (ofS "declining", ofS "not accepting"),
        (ofS "nonadherance", ofS "non-adherence"), (ofS "nonadherence", ofS "non-adherence"),
        (ofS "nonadherent", ofS "non-adherent"), (ofS "noncompliance", ofS "non-adherence"),
        (ofS "noncompliant", ofS "non-adherent"), (ofS "refusal", ofS "declined"),
        (ofS "refuse", ofS "decline"), (ofS "refused", ofS "declined"),
        (ofS "refuses", ofS "declines"), (ofS "refusing", ofS "declining") ]),
    ("other",
      [ (ofS "aggression", ofS "agitation"), (ofS "aggressive", ofS "agitated"),
        (ofS "aggressively", ofS "agitated"), (ofS "agitated", ofS "agitated"),
        (ofS "agitation", ofS "agitation"), (ofS "anger", ofS "frustration"),
        (ofS "angered", ofS "frustrated"), (ofS "angers", ofS "frustrates"),
        (ofS "angrier", ofS "more frustrated"), (ofS "angrily", ofS "frustrated"),
        (ofS "angry", ofS "frustrated"), (ofS "argumentative", ofS "disagreeing"),
        (ofS "argumentatively", ofS "disagreeing"), (ofS "belligerence", ofS "confrontation"),
        (ofS "belligerent", ofS "confrontational"), (ofS "belligerently", ofS "confrontationally"),
        (ofS "combative", ofS "confrontational"), (ofS "combatively", ofS "confrontationally"),
        (ofS "confrontational", ofS "confrontational"), (ofS "defensive", ofS "defensive"),
        (ofS "disheveled", ofS "disheveled"), (ofS "drug seeking", ofS "seeking medication"),
        (ofS "drug-seeking", ofS "seeking medication"), (ofS "exaggerate", ofS "overstate"),
        (ofS "exaggerates", ofS "overstates"), (ofS "exaggerating", ofS "overstating"),
        (ofS "historian", ofS "patient"), (ofS "malinger", ofS "feign"),
        (ofS "malingered", ofS "feigned"), (ofS "malingerer", ofS "person feigning"),
        (ofS "malingering", ofS "feigning"), (ofS "malingers", ofS "feigns"),
        (ofS "narcotic seeking", ofS "seeking pain medication"),
        (ofS "narcotic-seeking", ofS "seeking pain medication"),
        (ofS "poorly groomed", ofS "disheveled"), (ofS "poorly-groomed", ofS "disheveled"),
        (ofS "secondary gain", ofS "secondary benefit"), (ofS "uncooperative", ofS "uncooperative"),
        (ofS "unkempt", ofS "disheveled"), (ofS "unmotivated", ofS "unmotivated"),
        (ofS "unwilling", ofS "unwilling"), (ofS "unwillingly", ofS "unwillingly") ]) ]

/-- `StigmaRewriter.get_replacement`: exact lowercase lookup in the category's
table, returning the word itself when the category or the word is unknown. -/
def get_replacement (word : Str) (category : String) : Str :=
  match alookup category replacements with
  | some table =>
    match alookup (lower word) table with
    | some r => r
    | none => word
  | none => word

/-- A change record of the rule-based rewriter (`rewrite_text`). -/
structure Change where
  original : Str
  replacement : Str
  category : String
  position : Nat
  context : Str
deriving DecidableEq, Inhabited

/-- Splice `repl` into `rw` over `[a, b)`: `rw[:a] + repl + rw[b:]`. -/
def splice (rw : Str) (a b : Nat) (repl : Str) : Str :=
  rw.take a ++ repl ++ rw.drop b

/-- The loop body of `StigmaRewriter.rewrite_text`: walk the (descending-sorted)
matches, splice each replacement that differs (case-insensitively) from the
matched text and record a change; identical replacements are skipped. -/
def applyRule (rw : Str) : List StigmaMatch → Str × List Change
  | [] => (rw, [])
  | m :: rest =>
    let repl := get_replacement m.original_text m.category
    if lower repl ≠ lower m.original_text then
      let out := applyRule (splice rw m.start_pos m.end_pos repl) rest
      (out.1,
        { original := m.original_text, replacement := repl, category := m.category
          position := m.start_pos, context := m.context } :: out.2)
    else applyRule rw rest

/-- `StigmaRewriter.rewrite_text`: detect, sort matches by descending start
position, then apply replacements. -/
def rewrite_text (catalog : Catalog) (t : Str) : Str × List Change :=
  applyRule t (sortD (·.start_pos) (detect_stigma catalog t))

/-- The processing result of `ClinicalNoteProcessor.process_note`. -/
structure TradResult where
  original_text : Str
  rewritten_text : Str
  has_stigma : Bool
  stigma_matches : List StigmaMatch
  stigma_categories : List String
  changes_made : List Change
  num_changes : Nat
deriving DecidableEq

/-- `ClinicalNoteProcessor.process_note`. -/
def process_note (catalog : Catalog) (t : Str) : TradResult :=
  let stigma_matches := detect_stigma catalog t
  let rw := rewrite_text catalog t
  { original_text := t
    rewritten_text := rw.1
    has_stigma := stigma_matches.length > 0
    stigma_matches := stigma_matches
    stigma_categories := get_stigma_categories catalog t
    changes_made := rw.2
    num_changes := rw.2.length }

/-- `ClinicalNoteProcessor.batch_process`: a bare list comprehension
`[self.process_note(text) for text in texts]` with no `try`/`except`.  Under
exception semantics the items are processed left to right and the first raised
error propagates, aborting the comprehension.  The per-item processor is a
parameter so that item-level failures (which in the Python code would come
from the runtime environment) can be expressed. -/
def batch_process {ε ρ : Type _} (p : Str → Except ε ρ) : List Str → Except ε (List ρ)
  | [] => Except.ok []
  | t :: ts =>
    match p t with
    | Except.error e => Except.error e
    | Except.ok r =>
      match batch_process p ts with
      | Except.error e => Except.error e
      | Except.ok rs => Except.ok (r :: rs)

/-! ## BERT-enhanced classifier (`bert_enhanced_classifier.py`)

The BERT model only ever enters the algorithm through cosine similarities of
word embeddings; it is modelled as an abstract oracle `sim : Str → Str → ℚ`. -/

/-- The `"general"` pool of `load_neutral_alternatives` (the `"client"`
duplicate is verbatim from the source). -/
def generalPool : List Str :=
  [ ofS "patient", ofS "individual", ofS "person", ofS "client", ofS "resident",
    ofS "participant", ofS "subject", ofS "case", ofS "client", ofS "recipient" ]

/-- `load_neutral_alternatives`: the per-category curated candidate pools. -/
def neutral_alternatives : List (String × List Str) :=
  [ ("adamant",
      [ ofS "firm", ofS "assertive", ofS "determined", ofS "resolute", ofS "steadfast",
        ofS "persistent", ofS "consistent", ofS "clear", ofS "direct", ofS "straightforward" ]),
    ("compliance",
      [ ofS "declined", ofS "did not accept", ofS "chose not to", ofS "elected not to",
        ofS "was unable to", ofS "had difficulty with", ofS "struggled with",
        ofS "follow", ofS "adhere", ofS "participate", ofS "engage" ]),
    ("behavioral",
      [ ofS "agitated", ofS "distressed", ofS "concerned", ofS "frustrated", ofS "worried",
        ofS "anxious", ofS "upset", ofS "troubled", ofS "bothered", ofS "uncomfortable",
        ofS "confrontational", ofS "defensive", ofS "resistant" ]),
    ("appearance",
      [ ofS "disheveled", ofS "unkept", ofS "tired", ofS "weary", ofS "exhausted",
        ofS "fatigued", ofS "drained", ofS "worn", ofS "strained", ofS "stressed" ]),
    ("substance_use",
      [ ofS "seeking medication", ofS "requesting pain relief", ofS "asking for treatment",
        ofS "seeking help", ofS "requesting assistance", ofS "asking for support" ]),
    ("general", generalPool) ]

/-- The `proven_replacements` table of `_filter_and_prioritize_alternatives`
(the `"uncooperative"` key appears twice in the Python dict literal with the
same value; a dict keeps one entry). -/
def proven_replacements : List (Str × List Str) :=
  [ (ofS "adamant", [ofS "firm", ofS "determined", ofS "resolute"]),
    (ofS "refused", [ofS "declined", ofS "did not accept", ofS "chose not to"]),
    (ofS "historian", [ofS "patient"]),
    (ofS "noncompliant", [ofS "non-adherent", ofS "had difficulty with"]),
    (ofS "aggressive", [ofS "agitated", ofS "distressed", ofS "frustrated", ofS "confrontational"]),
    (ofS "agitated", [ofS "agitated"]),
    (ofS "uncooperative", [ofS "uncooperative"]),
    (ofS "combative", [ofS "confrontational", ofS "defensive"]),
    (ofS "drug seeking", [ofS "seeking medication", ofS "requesting pain relief"]),
    (ofS "poorly groomed", [ofS "disheveled", ofS "unkept"]),
    (ofS "malingering", [ofS "feigning", ofS "exaggerating"]),
    (ofS "belligerent", [ofS "confrontational", ofS "defensive"]),
    (ofS "exaggerating", [ofS "overstating", ofS "emphasizing"]),
    (ofS "claimed", [ofS "reported", ofS "stated", ofS "described"]),
    (ofS "insisted", [ofS "stated", ofS "reported", ofS "described"]),
    (ofS "adherence", [ofS "compliance"]),
    (ofS "compliant", [ofS "adherent"]),
    (ofS "compliance", [ofS "adherence"]),
    (ofS "adherent", [ofS "compliant"]),
    (ofS "comply", [ofS "follow", ofS "adhere", ofS "participate"]) ]

/-- The `poor_replacements` table of `_filter_and_prioritize_alternatives`. -/
def poor_replacements : List (Str × List Str) :=
  [ (ofS "refused", [ofS "adhere", ofS "comply", ofS "accept"]),
    (ofS "historian", [ofS "person", ofS "individual", ofS "client"]),
    (ofS "noncompliant", [ofS "cooperate", ofS "participate"]),
    (ofS "comply", [ofS "declined", ofS "refused", ofS "did not accept"]),
    (ofS "claimed", [ofS "persistent", ofS "consistent"]),
    (ofS "insisted", [ofS "persistent", ofS "consistent"]) ]

/-- `_filter_and_prioritize_alternatives`: boost proven replacements by `+0.2`,
penalize poor replacements by `-0.3`, then sort by boosted similarity,
descending (stable).  The `category` argument is accepted and unused,
as in the source. -/
def filter_and_prioritize (original_word : Str) (pairs : List (Str × ℚ))
    (_category : String) : List (Str × ℚ) :=
  let boosted := pairs.map (fun ws =>
    let s1 := match alookup (lower original_word) proven_replacements with
      | some l => if l.contains (lower ws.1) then ws.2 + mkRat 1 5 else ws.2
      | none => ws.2
    let s2 := match alookup (lower original_word) poor_replacements with
      | some l => if l.contains (lower ws.1) then s1 - mkRat 3 10 else s1
      | none => s1
    (ws.1, s2))
  sortD (·.2) boosted

/-- The category recorded for a keyword in `stigma_embeddings`
(`compute_stigma_embeddings` writes `dict[word.lower()] = category` walking the
catalog in order, so the last writer wins), with the `'general'` fallback of
`find_similar_neutral_alternatives`. -/
def stigma_category (catalog : Catalog) (word : Str) : String :=
  let entries := (catalog.map (fun cw => cw.2.map (fun w => (lower w, cw.1)))).flatten
  match (entries.reverse.find? (fun p => p.1 == lower word)).map (·.2) with
  | some c => c
  | none => "general"

/-- `find_similar_neutral_alternatives`: resolve the word's category, pick that
category's candidate pool (general pool as fallback), score every candidate by
similarity, boost/penalize/sort, and keep the first `top_k`. -/
def find_similar_neutral_alternatives (sim : Str → Str → ℚ) (catalog : Catalog)
    (word : Str) (top_k : Nat) : List (Str × ℚ) :=
  let category := stigma_category catalog word
  let pool := match alookup category neutral_alternatives with
    | some l => l
    | none => generalPool
  let pairs := pool.map (fun c => (c, sim word c))
  (filter_and_prioritize word pairs category).take top_k

/-- `BERTStigmaMatch` of `bert_enhanced_classifier.py`. -/
structure BertMatch where
  original_text : Str
  start_pos : Nat
  end_pos : Nat
  category : String
  confidence : ℚ
  context : Str
  bert_alternatives : List (Str × ℚ)
deriving DecidableEq, Inhabited

/-- `detect_stigma_with_bert`: the same pattern scan as `detect_stigma`, with
ranked alternatives attached; the confidence is the top alternative's
(adjusted) similarity, or `0.5` when there is none. -/
def detect_stigma_with_bert (sim : Str → Str → ℚ) (catalog : Catalog) (t : Str) :
    List BertMatch :=
  (catalog.map (fun cw =>
    (scanText t cw.2).map (fun sl =>
      let original_word := slice t sl.1 (sl.1 + sl.2)
      let alternatives := find_similar_neutral_alternatives sim catalog original_word 5
      { original_text := original_word
        start_pos := sl.1
        end_pos := sl.1 + sl.2
        category := cw.1
        confidence := match alternatives with
          | a :: _ => a.2
          | [] => mkRat 1 2
        context := contextOf t sl.1 (sl.1 + sl.2)
        bert_alternatives := alternatives }))).flatten

/-! ## String helpers for the quality gate -/

/-- Python `sub in s` substring test. -/
def hasSub (t p : Str) : Bool :=
  (List.range (t.length + 1)).any (fun i => (t.drop i).take p.length == p)

/-- Fuelled core of `replaceAll`. -/
def replaceAllFuel (old new : Str) : Str → Nat → Str
  | s, 0 => s
  | s, fuel + 1 =>
    if old.length ≠ 0 ∧ s.take old.length == old then
      new ++ replaceAllFuel old new (s.drop old.length) fuel
    else
      match s with
      | [] => []
      | c :: rest => c :: replaceAllFuel old new rest fuel

/-- Python `s.replace(old, new)`: replace every non-overlapping occurrence,
left to right.  (Our callers always pass a nonempty `old`.) -/
def replaceAll (s old new : Str) : Str := replaceAllFuel old new s (s.length + 1)

/-- `re.search(r'\bw\b', s, re.IGNORECASE)` for a literal `w`. -/
def searchWord (w : Str) (s : Str) : Bool :=
  (List.range (s.length + 1)).any (fun i => matchesAt s i w)

/-- Consume the literal `p` (case-insensitively) at the head of `s`. -/
def consumeCI (s p : Str) : Option Str :=
  if lower (s.take p.length) == lower p then some (s.drop p.length) else none

/-- Match `p₁\s+p₂\s+…\s+pₙ` at the head of `s` (case-insensitive; every `pᵢ`
starts with a non-whitespace character, so consuming the maximal whitespace run
is exact). -/
def seqFrom (s : Str) : List Str → Bool
  | [] => true
  | p :: ps =>
    match consumeCI s p with
    | none => false
    | some s' =>
      match ps with
      | [] => true
      | _ :: _ =>
        match s' with
        | [] => false
        | c :: _ => c.isWhitespace && seqFrom (s'.dropWhile Char.isWhitespace) ps

/-- `re.search` for a pattern of literals joined by `\s+` (case-insensitive). -/
def searchSeq (parts : List Str) (s : Str) : Bool :=
  (List.range (s.length + 1)).any (fun i => seqFrom (s.drop i) parts)

/-- Python `s.rfind('.', 0, position)`: last index of `'.'` before `position`,
if any. -/
def rfindDotBefore (t : Str) (position : Nat) : Option Nat :=
  ((List.range position).filter (fun j => t.get? j == some '.')).getLast?

/-- Python `s.find('.', position)`: first index of `'.'` at or after
`position`, if any. -/
def findDotFrom (t : Str) (position : Nat) : Option Nat :=
  ((List.range t.length).filter
    (fun j => decide (position ≤ j) && (t.get? j == some '.'))).head?

/-- Python `s.strip()` (whitespace at both ends). -/
def stripWs (s : Str) : Str :=
  ((s.dropWhile Char.isWhitespace).reverse.dropWhile Char.isWhitespace).reverse

/-! ## The quality gate (`_is_appropriate_replacement` and its sub-checks) -/

/-- The fixed known-bad post-substitution fragments of
`_is_grammatically_correct`. -/
def badFragments : List Str :=
  [ ofS "was adhere", ofS "were adhere", ofS "is adhere", ofS "are adhere",
    ofS "was comply", ofS "were comply", ofS "is comply", ofS "are comply",
    ofS "a patient", ofS "an patient",
    ofS "to declined", ofS "with declined", ofS "for declined",
    ofS "declined to declined", ofS "refused to declined" ]

/-- `_is_grammatically_correct`: rebuild the ±20-char context with the
substitution applied (Python `str.replace`, case-sensitive, all occurrences)
and reject if any known-bad fragment occurs in it (lowercased).  (The
`problematic_patterns` list in the source is built and never used.) -/
def is_grammatically_correct (original replacement : Str) (full_text : Str)
    (position : Nat) : Bool :=
  let context := slice full_text (position - 20)
    (min full_text.length (position + original.length + 20))
  let test_context := replaceAll context original replacement
  ¬ badFragments.any (fun p => hasSub (lower test_context) p)

/-- The `critical_terms` table of `_preserves_clinical_meaning`. -/
def critical_terms : List (Str × Str) :=
  [ (ofS "historian", ofS "patient"),
    (ofS "refused", ofS "declined"),
    (ofS "noncompliant", ofS "non-adherent"),
    (ofS "nonadherent", ofS "non-adherent") ]

/-- The `meaning_preserving` table of `_preserves_clinical_meaning`. -/
def meaning_preserving : List (Str × List Str) :=
  [ (ofS "adamant", [ofS "firm", ofS "determined", ofS "resolute"]),
    (ofS "aggressive", [ofS "agitated", ofS "distressed", ofS "frustrated"]),
    (ofS "combative", [ofS "confrontational", ofS "defensive"]),
    (ofS "drug seeking", [ofS "seeking medication", ofS "requesting pain relief"]),
    (ofS "poorly groomed", [ofS "disheveled", ofS "unkept"]),
    (ofS "malingering", [ofS "feigning", ofS "exaggerating"]),
    (ofS "comply", [ofS "follow", ofS "adhere", ofS "participate"]),
    (ofS "claimed", [ofS "reported", ofS "stated", ofS "described"]),
    (ofS "insisted", [ofS "stated", ofS "reported", ofS "described"]) ]

/-- `_preserves_clinical_meaning`: a critical term admits exactly its one
sanctioned replacement; a term with a meaning-preserving set admits only
members of that set; anything else passes. -/
def preserves_clinical_meaning (original replacement : Str) : Bool :=
  match alookup (lower original) critical_terms with
  | some required => lower replacement == required
  | none =>
    match alookup (lower original) meaning_preserving with
    | some allowed => allowed.contains (lower replacement)
    | none => true

/-- The `problematic_contexts` triples of `_is_contextually_appropriate`:
(trigger word for `original`, required replacement, sentence pattern as
`\s+`-joined literals). -/
def problematic_contexts : List (Str × Str × List Str) :=
  [ (ofS "historian", ofS "patient", [ofS "poor", ofS "historian"]),
    (ofS "refused", ofS "declined", [ofS "refused", ofS "to", ofS "comply"]),
    (ofS "noncompliant", ofS "non-adherent", [ofS "noncompliant", ofS "with"]) ]

/-- `_is_contextually_appropriate`: extract the sentence enclosing `position`
(bounded by the nearest `'.'` on each side, stripped), then for the first
triple whose trigger occurs in `original` and whose sentence pattern occurs in
the sentence, require the replacement to equal the sanctioned one. -/
def is_contextually_appropriate (original replacement : Str) (full_text : Str)
    (position : Nat) : Bool :=
  let sentence_start := match rfindDotBefore full_text position with
    | some j => j + 1
    | none => 0
  let sentence_end := match findDotFrom full_text position with
    | some j => j
    | none => full_text.length
  let sentence := stripWs (slice full_text sentence_start sentence_end)
  let rec check : List (Str × Str × List Str) → Bool
    | [] => true
    | (trig, required, ctxPat) :: rest =>
      if searchWord trig original && searchSeq ctxPat sentence then
        lower replacement == required
      else check rest
  check problematic_contexts

/-- The already-neutral terms that are never rewritten
(`_is_appropriate_replacement`, check 2). -/
def neutral_terms : List Str :=
  [ofS "agitated", ofS "uncooperative", ofS "patient", ofS "individual", ofS "person"]

/-- `_is_appropriate_replacement`: the multi-stage accept gate.  All checks
must pass: similarity threshold 0.6, the already-neutral list, the
compliance-specific forbidden pairs, grammatical plausibility, clinical
meaning preservation, and sentence-context appropriateness. -/
def is_appropriate_replacement (original replacement : Str) (category : String)
    (similarity_score : ℚ) (full_text : Str) (position : Nat) : Bool :=
  if similarity_score < mkRat 3 5 then false
  else if neutral_terms.contains (lower original) then false
  else if category == "compliance" &&
      [ofS "refused", ofS "declined"].contains (lower original) &&
      [ofS "adhere", ofS "comply"].contains (lower replacement) then false
  else if category == "compliance" &&
      lower original == ofS "comply" && lower replacement == ofS "declined" then false
  else if ¬ is_grammatically_correct original replacement full_text position then false
  else if ¬ preserves_clinical_meaning original replacement then false
  else if ¬ is_contextually_appropriate original replacement full_text position then false
  else true

/-- The `high_quality_replacements` table of `_calculate_quality_score`. -/
def high_quality_replacements : List (Str × Str) :=
  [ (ofS "adamant", ofS "firm"),
    (ofS "refused", ofS "declined"),
    (ofS "historian", ofS "patient"),
    (ofS "noncompliant", ofS "non-adherent"),
    (ofS "aggressive", ofS "agitated"),
    (ofS "combative", ofS "confrontational"),
    (ofS "drug seeking", ofS "seeking medication"),
    (ofS "poorly groomed", ofS "disheveled"),
    (ofS "malingering", ofS "feigning") ]

/-- `_calculate_quality_score`: the similarity score, plus a `0.1` bonus for a
proven high-quality pair, capped at `1.0`. -/
def calculate_quality_score (original replacement : Str) (similarity_score : ℚ) : ℚ :=
  let q := match alookup (lower original) high_quality_replacements with
    | some r => if lower replacement == r then similarity_score + mkRat 1 10
                else similarity_score
    | none => similarity_score
  min q 1

/-- A change record of the similarity-based rewriter (`rewrite_text_with_bert`). -/
structure BChange where
  original : Str
  replacement : Str
  category : String
  position : Nat
  context : Str
  similarity_score : ℚ
  all_alternatives : List (Str × ℚ)
  quality_score : ℚ
deriving DecidableEq, Inhabited

/-- The loop body of `rewrite_text_with_bert`: walk the (descending-sorted)
matches; for each, consult only the FIRST ranked alternative — splice it and
record a change when it passes the gate (against the original full text), and
skip the match otherwise. -/
def applyBert (full_text : Str) (rw : Str) : List BertMatch → Str × List BChange
  | [] => (rw, [])
  | m :: rest =>
    match m.bert_alternatives with
    | [] => applyBert full_text rw rest
    | (best, score) :: _ =>
      if is_appropriate_replacement m.original_text best m.category score
          full_text m.start_pos then
        let out := applyBert full_text (splice rw m.start_pos m.end_pos best) rest
        (out.1,
          { original := m.original_text, replacement := best, category := m.category
            position := m.start_pos, context := m.context
            similarity_score := score
            all_alternatives := m.bert_alternatives
            quality_score := calculate_quality_score m.original_text best score } :: out.2)
      else applyBert full_text rw rest

/-- `rewrite_text_with_bert`: detect with alternatives, sort matches by
descending start position, then apply the gated top alternatives. -/
def rewrite_text_with_bert (sim : Str → Str → ℚ) (catalog : Catalog) (t : Str) :
    Str × List BChange :=
  applyBert t t (sortD (·.start_pos) (detect_stigma_with_bert sim catalog t))

/-- The processing result of `BERTEnhancedProcessor.process_note`. -/
structure BertResult where
  original_text : Str
  rewritten_text : Str
  has_stigma : Bool
  stigma_matches : List BertMatch
  stigma_categories : List String
  changes_made : List BChange
  num_changes : Nat
deriving DecidableEq

/-- `BERTEnhancedProcessor.process_note`. -/
def process_note_bert (sim : Str → Str → ℚ) (catalog : Catalog) (t : Str) : BertResult :=
  let stigma_matches := detect_stigma_with_bert sim catalog t
  let rw := rewrite_text_with_bert sim catalog t
  { original_text := t
    rewritten_text := rw.1
    has_stigma := stigma_matches.length > 0
    stigma_matches := stigma_matches
    stigma_categories := (stigma_matches.map (·.category)).eraseDups
    changes_made := rw.2
    num_changes := rw.2.length }

/-! ## Hybrid processor (`hybrid_processor.py`) -/

/-- The result of `HybridProcessor._process_hybrid`: both raw sub-results plus
the chosen primary's fields.  The per-change payloads of the two pipelines have
different shapes, so the copied change list is a sum. -/
structure HybridResult where
  original_text : Str
  traditional_result : TradResult
  bert_result : Option BertResult
  rewritten_text : Str
  has_stigma : Bool
  stigma_categories : List String
  changes_made : List Change ⊕ List BChange
  num_changes : Nat
  primary_method : String

/-- `HybridProcessor._process_hybrid`: run both pipelines (the BERT one only
when the BERT processor is available) and copy the fields of the BERT result
exactly when it exists and has strictly more changes; otherwise copy the
traditional result's fields. -/
def process_hybrid (bertAvail : Bool) (sim : Str → Str → ℚ) (catalog : Catalog)
    (t : Str) : HybridResult :=
  let traditional_result := process_note catalog t
  let bert_result := if bertAvail then some (process_note_bert sim catalog t) else none
  match bert_result with
  | some br =>
    if br.num_changes > traditional_result.num_changes then
      { original_text := t
        traditional_result := traditional_result
        bert_result := some br
        rewritten_text := br.rewritten_text
        has_stigma := br.has_stigma
        stigma_categories := br.stigma_categories
        changes_made := Sum.inr br.changes_made
        num_changes := br.num_changes
        primary_method := "bert" }
    else
      { original_text := t
        traditional_result := traditional_result
        bert_result := some br
        rewritten_text := traditional_result.rewritten_text
        has_stigma := traditional_result.has_stigma
        stigma_categories := traditional_result.stigma_categories
        changes_made := Sum.inl traditional_result.changes_made
        num_changes := traditional_result.num_changes
        primary_method := "traditional" }
  | none =>
    { original_text := t
      traditional_result := traditional_result
      bert_result := none
      rewritten_text := traditional_result.rewritten_text
      has_stigma := traditional_result.has_stigma
      stigma_categories := traditional_result.stigma_categories
      changes_made := Sum.inl traditional_result.changes_made
      num_changes := traditional_result.num_changes
      primary_method := "traditional" }

/-- Fuelled splitter for Python `str.split()` (no argument): maximal
non-whitespace runs, empties discarded. -/
def splitWsFuel : Str → Nat → List Str
  | _, 0 => []
  | s, fuel + 1 =>
    match s.dropWhile Char.isWhitespace with
    | [] => []
    | c :: rest =>
      (c :: rest.takeWhile (fun d => ¬ d.isWhitespace)) ::
        splitWsFuel (rest.dropWhile (fun d => ¬ d.isWhitespace)) fuel

/-- Python `text.split()`: whitespace-separated words. -/
def splitWs (s : Str) : List Str := splitWsFuel s (s.length + 1)

/-- Python `text.split('.')`: split at every `'.'`, keeping empty parts. -/
def splitDot (s : Str) : List Str :=
  s.foldr (fun ch acc =>
    if ch = '.' then [] :: acc
    else match acc with
      | [] => [[ch]]
      | h :: tl => (ch :: h) :: tl) [[]]

/-- The result of `HybridProcessor.analyze_text_complexity`. -/
structure ComplexityResult where
  word_count : Nat
  sentence_count : Nat
  avg_sentence_length : ℚ
  recommended_method : String
deriving DecidableEq

/-- `HybridProcessor.analyze_text_complexity`: word count from `text.split()`,
sentence count from `text.split('.')`, average = words/sentences (0 for an
empty sentence list), and the method recommendation, upgraded to `"bert"`
when the text has more than 20 words OR more than 3 sentences (and the BERT
processor is available). -/
def analyze_text_complexity (bertAvail : Bool) (t : Str) : ComplexityResult :=
  let words := splitWs t
  let sentences := splitDot t
  let base : ComplexityResult :=
    { word_count := words.length
      sentence_count := sentences.length
      avg_sentence_length :=
        if sentences.length ≠ 0 then (words.length : ℚ) / (sentences.length : ℚ) else 0
      recommended_method := "traditional" }
  if words.length > 20 ∨ sentences.length > 3 then
    { base with recommended_method := if bertAvail then "bert" else "traditional" }
  else base

/-- The method choice of `HybridProcessor._process_auto`: the BERT pipeline
exactly when it is available and the text has more than 20
whitespace-separated tokens. -/
def auto_method (bertAvail : Bool) (t : Str) : String :=
  if bertAvail ∧ (splitWs t).length > 20 then "bert" else "traditional"

/-- The per-match change decision of `StigmaRewriter.rewrite_text`. -/
def ruleChangeOf (m : StigmaMatch) : Option Change :=
  let repl := get_replacement m.original_text m.category
  if lower repl ≠ lower m.original_text then
    some { original := m.original_text, replacement := repl, category := m.category
           position := m.start_pos, context := m.context }
  else none

/-- The per-match change decision of `rewrite_text_with_bert`: only the first
ranked alternative is ever consulted; it is recorded iff it passes the gate. -/
def bertChangeOf (full_text : Str) (m : BertMatch) : Option BChange :=
  match m.bert_alternatives with
  | [] => none
  | (best, score) :: _ =>
    if is_appropriate_replacement m.original_text best m.category score
        full_text m.start_pos then
      some { original := m.original_text, replacement := best, category := m.category
             position := m.start_pos, context := m.context
             similarity_score := score
             all_alternatives := m.bert_alternatives
             quality_score := calculate_quality_score m.original_text best score }
    else none

/-- Does `word`'s proven-replacements list (if any) contain `cand`? -/
def provenB (word cand : Str) : Bool :=
  match alookup (lower word) proven_replacements with
  | some l => l.contains (lower cand)
  | none => false

/-- Does `word`'s poor-replacements list (if any) contain `cand`? -/
def poorB (word cand : Str) : Bool :=
  match alookup (lower word) poor_replacements with
  | some l => l.contains (lower cand)
  | none => false

/-- The candidate-score adjustment as the spec states it (step 5 of
`rank`): add exactly `+0.2` for a configured proven replacement and subtract
exactly `0.3` for a configured poor replacement.  Spec-side definition, to be
compared with the code-side `filter_and_prioritize`. -/
def specAdjustedScore (word cand : Str) (s : ℚ) : ℚ :=
  s + (if provenB word cand then mkRat 1 5 else 0) -
    (if poorB word cand then mkRat 3 10 else 0)

/-! ## Concrete fixtures for witnesses and counterexamples

The runtime keyword file is external configuration; the engine is parametric
over the catalog, so concrete instances pick a small representative catalog.
Similarity oracles are chosen concrete functions. -/

/-- A small concrete catalog. -/
def demoCatalog : Catalog :=
  [ ("adamant", [ofS "adamant", ofS "insisted", ofS "claims"]),
    ("compliance", [ofS "refused", ofS "noncompliant", ofS "comply"]),
    ("other", [ofS "combative", ofS "agitated", ofS "uncooperative"]) ]

/-- A note containing the keyword `refused` (at offset 8). -/
def bertText : Str := ofS "Patient refused care."

/-- A note containing the keyword `adamant` (at offset 12). -/
def tradText : Str := ofS "Patient was adamant."

/-- Scenario 3's note, containing no catalog keyword. -/
def neutralText : Str := ofS "Patient was cooperative and followed treatment plan."

/-- Oracle scoring only `declined` (raw 0.7). -/
def simDeclined : Str → Str → ℚ :=
  fun _ c => if c = ofS "declined" then mkRat 7 10 else 0

/-- Oracle scoring `chose not to` (raw 0.8) above `declined` (raw 0.7). -/
def simChoseNotTo : Str → Str → ℚ :=
  fun _ c =>
    if c = ofS "chose not to" then mkRat 4 5
    else if c = ofS "declined" then mkRat 7 10 else 0

/-- Oracle scoring only `firm` (raw 0.95). -/
def simFirm : Str → Str → ℚ :=
  fun _ c => if c = ofS "firm" then mkRat 19 20 else 0

/-- Constant oracle (raw 0.5 everywhere). -/
def simHalf : Str → Str → ℚ := fun _ _ => mkRat 1 2

/-- The accepted change of the similarity pipeline on `bertText` under
`simDeclined`. -/
def c3ch : BChange := ((rewrite_text_with_bert simDeclined demoCatalog bertText).2).headI

/-- The accepted change of the rule-based pipeline on `tradText`. -/
def c4tc : Change := ((rewrite_text demoCatalog tradText).2).headI

/-- The rule-based match on `tradText`. -/
def m1fix : StigmaMatch := (detect_stigma demoCatalog tradText).headI

/-- The similarity match on `tradText` under the constant oracle. -/
def m3fix : BertMatch := (detect_stigma_with_bert simHalf demoCatalog tradText).headI

/-- The sorted similarity match on `bertText` under `simDeclined`. -/
def c2match : BertMatch :=
  (sortD (·.start_pos) (detect_stigma_with_bert simDeclined demoCatalog bertText)).headI

/-- The similarity match on `tradText` under `simFirm` (its confidence is the
boosted score of `firm`). -/
def c9match : BertMatch := (detect_stigma_with_bert simFirm demoCatalog tradText).headI

/-- A per-item processor that fails on the text `bad`. -/
def failP : Str → Except String Nat :=
  fun t => if t = ofS "bad" then Except.error "boom" else Except.ok t.length

/-- A batch whose first item fails under `failP` and whose second succeeds. -/
def twoTexts : List Str := [ofS "bad", ofS "good"]


/-! ## Properties of the stable descending sort -/

theorem mem_insD {α β : Type _} [LinearOrder β] (key : α → β) (x a : α) :
    ∀ l : List α, a ∈ insD key x l ↔ a = x ∨ a ∈ l := by
  intro l
  induction l with
  | nil => simp [insD]
  | cons y ys ih =>
    unfold insD
    split
    · simp
    · simp only [List.mem_cons, ih]
      tauto

theorem mem_sortD {α β : Type _} [LinearOrder β] (key : α → β) (a : α) :
    ∀ l : List α, a ∈ sortD key l ↔ a ∈ l := by
  intro l
  induction l with
  | nil => simp [sortD]
  | cons x xs ih => simp [sortD, mem_insD, ih]

theorem pairwise_insD {α β : Type _} [LinearOrder β] (key : α → β) (x : α) :
    ∀ l : List α, l.Pairwise (fun a b => key b ≤ key a) →
      (insD key x l).Pairwise (fun a b => key b ≤ key a) := by
  intro l
  induction l with
  | nil => intro _; simp [insD]
  | cons y ys ih =>
    intro h
    rcases List.pairwise_cons.1 h with ⟨hy, hys⟩
    unfold insD
    split
    · rename_i hle
      refine List.pairwise_cons.2 ⟨?_, h⟩
      intro b hb
      rcases List.mem_cons.1 hb with rfl | hb
      · exact hle
      · exact le_trans (hy b hb) hle
    · rename_i hnle
      refine List.pairwise_cons.2 ⟨?_, ih hys⟩
      intro b hb
      rcases (mem_insD key x b ys).1 hb with rfl | hb
      · exact (not_le.1 hnle).le
      · exact hy b hb

theorem pairwise_sortD {α β : Type _} [LinearOrder β] (key : α → β) :
    ∀ l : List α, (sortD key l).Pairwise (fun a b => key b ≤ key a) := by
  intro l
  induction l with
  | nil => simp [sortD]
  | cons x xs ih => exact pairwise_insD key x _ ih

theorem filter_insD {α β : Type _} [LinearOrder β] (key : α → β) (x : α) (s : β) :
    ∀ l : List α,
      (insD key x l).filter (fun a => decide (key a = s)) =
        if key x = s then x :: l.filter (fun a => decide (key a = s))
        else l.filter (fun a => decide (key a = s)) := by
  intro l
  induction l with
  | nil => by_cases hx : key x = s <;> simp [insD, hx]
  | cons y ys ih =>
    unfold insD
    split
    · by_cases hx : key x = s <;> simp [hx, List.filter_cons]
    · rename_i hnle
      have hxy : key x < key y := not_le.1 hnle
      by_cases hy : key y = s
      · have hx : ¬ key x = s := by
          intro hx; exact absurd (hx.trans hy.symm) (ne_of_lt hxy)
        simp [List.filter_cons, hy, hx, ih]
      · simp [List.filter_cons, hy, ih]

theorem filter_sortD {α β : Type _} [LinearOrder β] (key : α → β) (s : β) :
    ∀ l : List α,
      (sortD key l).filter (fun a => decide (key a = s)) =
        l.filter (fun a => decide (key a = s)) := by
  intro l
  induction l with
  | nil => rfl
  | cons x xs ih =>
    by_cases hx : key x = s <;>
      simp [sortD, filter_insD, hx, ih, List.filter_cons]

/-! ## Soundness of the pattern scan -/

theorem length_slice_of_matchesAt {t : Str} {i : Nat} {w : Str}
    (h : matchesAt t i w = true) :
    (slice t i (i + w.length)).length = w.length := by
  simp only [matchesAt, Bool.and_eq_true, beq_iff_eq] at h
  have heq' : lower (slice t i (i + w.length)) = lower w := h.2
  have := congrArg List.length heq'
  simpa [lower] using this

theorem scanFrom_sound {t : Str} {ws : List Str} :
    ∀ {fuel i : Nat} {p : Nat × Nat}, p ∈ scanFrom t ws i fuel →
      ∃ w ∈ ws, matchesAt t p.1 w = true ∧ p.2 = w.length := by
  intro fuel
  induction fuel with
  | zero => intro i p hp; simp [scanFrom] at hp
  | succ n ih =>
    intro i p hp
    rw [scanFrom] at hp
    cases h : altAt t i ws with
    | some w =>
      rw [h] at hp
      rcases List.mem_cons.1 hp with rfl | hp
      · exact ⟨w, List.mem_of_find?_eq_some h, List.find?_some h, rfl⟩
      · exact ih hp
    | none =>
      rw [h] at hp
      exact ih hp

theorem detect_stigma_sound {catalog : Catalog} {t : Str} :
    ∀ m ∈ detect_stigma catalog t,
      m.original_text = slice t m.start_pos m.end_pos ∧
      m.end_pos = m.start_pos + m.original_text.length := by
  intro m hm
  simp only [detect_stigma, List.mem_flatten, List.mem_map] at hm
  rcases hm with ⟨l, ⟨cw, _, rfl⟩, hl⟩
  rcases List.mem_map.1 hl with ⟨sl, hsl, rfl⟩
  rcases scanFrom_sound hsl with ⟨w, _, hmat, hlen⟩
  have hslice : (slice t sl.1 (sl.1 + sl.2)).length = sl.2 := by
    rw [hlen]; exact length_slice_of_matchesAt hmat
  exact ⟨rfl, by simp [hslice]⟩

theorem detect_bert_sound {sim : Str → Str → ℚ} {catalog : Catalog} {t : Str} :
    ∀ m ∈ detect_stigma_with_bert sim catalog t,
      m.original_text = slice t m.start_pos m.end_pos ∧
      m.end_pos = m.start_pos + m.original_text.length := by
  intro m hm
  simp only [detect_stigma_with_bert, List.mem_flatten, List.mem_map] at hm
  rcases hm with ⟨l, ⟨cw, _, rfl⟩, hl⟩
  rcases List.mem_map.1 hl with ⟨sl, hsl, rfl⟩
  rcases scanFrom_sound hsl with ⟨w, _, hmat, hlen⟩
  have hslice : (slice t sl.1 (sl.1 + sl.2)).length = sl.2 := by
    rw [hlen]; exact length_slice_of_matchesAt hmat
  exact ⟨rfl, by simp [hslice]⟩

/-! ## Characterization of the two rewrite loops -/

theorem applyRule_changes : ∀ (rw : Str) (ms : List StigmaMatch),
    (applyRule rw ms).2 = ms.filterMap ruleChangeOf := by
  intro rw ms
  induction ms generalizing rw with
  | nil => rfl
  | cons m rest ih =>
    simp only [applyRule, ruleChangeOf, List.filterMap_cons]
    split
    · simp [ih]
    · simp [ih]

theorem applyBert_changes (full_text : Str) : ∀ (rw : Str) (ms : List BertMatch),
    (applyBert full_text rw ms).2 = ms.filterMap (bertChangeOf full_text) := by
  intro rw ms
  induction ms generalizing rw with
  | nil => rfl
  | cons m rest ih =>
    simp only [applyBert, bertChangeOf, List.filterMap_cons]
    cases halt : m.bert_alternatives with
    | nil => simpa using ih rw
    | cons a tl =>
      obtain ⟨best, score⟩ := a
      by_cases hc : is_appropriate_replacement m.original_text best m.category score
          full_text m.start_pos = true
      · simp [hc, ih]
      · simp [hc, ih]

/-- The accept gate never passes a similarity score below `0.6`
(check 1 of `_is_appropriate_replacement`). -/
theorem gate_score_ge {o r : Str} {c : String} {s : ℚ} {ft : Str} {pos : Nat}
    (h : is_appropriate_replacement o r c s ft pos = true) : mkRat 3 5 ≤ s := by
  by_contra hlt
  rw [is_appropriate_replacement, if_pos (not_le.1 hlt)] at h
  cases h

/-! ## No-keyword texts produce no matches -/

theorem boundaryAt_of_gt {t : Str} {j : Nat} (h : t.length < j) :
    boundaryAt t j = false := by
  have hj0 : j ≠ 0 := by omega
  have h1 : t[j]? = none := List.getElem?_eq_none (by omega)
  have h2 : t[j - 1]? = none := List.getElem?_eq_none (by omega)
  simp [boundaryAt, wordCharAt, hj0, h1, h2]

theorem matchesAt_of_gt {t : Str} {j : Nat} (h : t.length < j) (w : Str) :
    matchesAt t j w = false := by
  simp [matchesAt, boundaryAt_of_gt h]

theorem scanFrom_eq_nil {t : Str} {ws : List Str}
    (h : ∀ (j : Nat) (w : Str), w ∈ ws → matchesAt t j w = false) :
    ∀ (fuel i : Nat), scanFrom t ws i fuel = [] := by
  intro fuel
  induction fuel with
  | zero => intro i; rfl
  | succ n ih =>
    intro i
    have halt : altAt t i ws = none :=
      List.find?_eq_none.2 (fun w hw => by simp [h i w hw])
    rw [scanFrom, halt, ih]

theorem scanText_eq_nil {t : Str} {ws : List Str}
    (h : ∀ i, i ≤ t.length → ∀ w ∈ patternAlts ws, matchesAt t i w = false) :
    scanText t ws = [] := by
  refine scanFrom_eq_nil (fun j w hw => ?_) _ _
  by_cases hj : j ≤ t.length
  · exact h j hj w hw
  · exact matchesAt_of_gt (by omega) w

theorem no_occurrence_no_match {catalog : Catalog} {t : Str}
    (h : hasKeywordOccurrence catalog t = false) :
    ∀ cw ∈ catalog, ∀ i, i ≤ t.length → ∀ w ∈ patternAlts cw.2,
      matchesAt t i w = false := by
  intro cw hcw i hi w hw
  simp only [hasKeywordOccurrence, List.any_eq_false, Bool.not_eq_true] at h
  have h1 := h cw hcw i (List.mem_range.2 (by omega)) w hw
  simpa using h1

theorem detect_stigma_eq_nil {catalog : Catalog} {t : Str}
    (h : hasKeywordOccurrence catalog t = false) :
    detect_stigma catalog t = [] := by
  unfold detect_stigma
  rw [List.flatten_eq_nil_iff]
  intro l hl
  rcases List.mem_map.1 hl with ⟨cw, hcw, rfl⟩
  rw [scanText_eq_nil (fun i hi w hw => no_occurrence_no_match h cw hcw i hi w hw),
    List.map_nil]

theorem detect_bert_eq_nil {sim : Str → Str → ℚ} {catalog : Catalog} {t : Str}
    (h : hasKeywordOccurrence catalog t = false) :
    detect_stigma_with_bert sim catalog t = [] := by
  unfold detect_stigma_with_bert
  rw [List.flatten_eq_nil_iff]
  intro l hl
  rcases List.mem_map.1 hl with ⟨cw, hcw, rfl⟩
  rw [scanText_eq_nil (fun i hi w hw => no_occurrence_no_match h cw hcw i hi w hw),
    List.map_nil]

/-! ## Behaviour of the batch comprehension -/

theorem batch_process_aborts {ε ρ : Type _} (p : Str → Except ε ρ) :
    ∀ (texts : List Str) (t : Str) (e : ε), t ∈ texts → p t = Except.error e →
      ∃ e', batch_process p texts = Except.error e' := by
  intro texts
  induction texts with
  | nil => intro t e ht _; cases ht
  | cons x xs ih =>
    intro t e ht he
    cases hx : p x with
    | error e1 => exact ⟨e1, by simp [batch_process, hx]⟩
    | ok r =>
      rcases List.mem_cons.1 ht with rfl | ht'
      · rw [hx] at he; cases he
      · rcases ih t e ht' he with ⟨e', h'⟩
        exact ⟨e', by simp [batch_process, hx, h']⟩

theorem batch_process_ok_pointwise {ε ρ : Type _} (p : Str → Except ε ρ) :
    ∀ (texts : List Str) (rs : List ρ), batch_process p texts = Except.ok rs →
      rs.length = texts.length ∧
      ∀ (i : Nat) (hi : i < texts.length) (hi' : i < rs.length),
        p (texts.get ⟨i, hi⟩) = Except.ok (rs.get ⟨i, hi'⟩) := by
  intro texts
  induction texts with
  | nil =>
    intro rs h
    have : rs = [] := by
      simpa [batch_process] using h.symm
    subst this
    exact ⟨rfl, fun i hi _ => absurd hi (by simp)⟩
  | cons x xs ih =>
    intro rs h
    cases hx : p x with
    | error e => rw [batch_process, hx] at h; cases h
    | ok r =>
      rw [batch_process, hx] at h
      cases hb : batch_process p xs with
      | error e => rw [hb] at h; cases h
      | ok rs' =>
        rw [hb] at h
        have hrs : r :: rs' = rs := by
          cases h; rfl
        subst hrs
        rcases ih rs' hb with ⟨hlen, hpt⟩
        refine ⟨by simp [hlen], ?_⟩
        intro i hi hi'
        cases i with
        | zero => simpa using hx
        | succ n => simpa using hpt n (by simpa using hi) (by simpa using hi')

/-! ## Numeric constants as fractions -/

theorem mkRat_1_5 : (mkRat 1 5 : ℚ) = 1 / 5 := by
  rw [Rat.mkRat_eq_div]; norm_num

theorem mkRat_3_10 : (mkRat 3 10 : ℚ) = 3 / 10 := by
  rw [Rat.mkRat_eq_div]; norm_num

theorem mkRat_3_5 : (mkRat 3 5 : ℚ) = 3 / 5 := by
  rw [Rat.mkRat_eq_div]; norm_num

theorem mkRat_1_10 : (mkRat 1 10 : ℚ) = 1 / 10 := by
  rw [Rat.mkRat_eq_div]; norm_num

theorem mkRat_1_2 : (mkRat 1 2 : ℚ) = 1 / 2 := by
  rw [Rat.mkRat_eq_div]; norm_num

theorem mkRat_13_10 : (mkRat 13 10 : ℚ) = 13 / 10 := by
  rw [Rat.mkRat_eq_div]; norm_num

theorem mkRat_6_5 : (mkRat 6 5 : ℚ) = 6 / 5 := by
  rw [Rat.mkRat_eq_div]; norm_num

/-! ## Inversion of the per-match change decisions -/

theorem ruleChangeOf_inv {m : StigmaMatch} {ch : Change}
    (h : ruleChangeOf m = some ch) :
    ch.original = m.original_text ∧ ch.position = m.start_pos := by
  simp only [ruleChangeOf] at h
  split at h
  · cases h; exact ⟨rfl, rfl⟩
  · cases h

theorem bertChangeOf_inv {ft : Str} {m : BertMatch} {ch : BChange}
    (h : bertChangeOf ft m = some ch) :
    ∃ best score tl, m.bert_alternatives = (best, score) :: tl ∧
      is_appropriate_replacement m.original_text best m.category score ft
        m.start_pos = true ∧
      ch.original = m.original_text ∧ ch.replacement = best ∧
      ch.position = m.start_pos ∧ ch.similarity_score = score ∧
      ch.quality_score = calculate_quality_score m.original_text best score := by
  unfold bertChangeOf at h
  cases halt : m.bert_alternatives with
  | nil => rw [halt] at h; cases h
  | cons a tl =>
    obtain ⟨best, score⟩ := a
    rw [halt] at h
    dsimp only at h
    by_cases hgate : is_appropriate_replacement m.original_text best m.category score
        ft m.start_pos = true
    · rw [if_pos hgate] at h
      cases h
      exact ⟨best, score, tl, rfl, hgate, rfl, rfl, rfl, rfl, rfl⟩
    · rw [if_neg hgate] at h
      cases h

/-! ## Bounds on the adjusted scores -/

theorem match_adjust_cases (o : Option (List Str)) (key : Str) (s : ℚ) (g : ℚ → ℚ) :
    (match o with
      | some l => if l.contains key then g s else s
      | none => s) = s ∨
    (match o with
      | some l => if l.contains key then g s else s
      | none => s) = g s := by
  cases o with
  | none => exact Or.inl rfl
  | some l =>
    by_cases h : l.contains key = true
    · exact Or.inr (by dsimp only; rw [if_pos h])
    · exact Or.inl (by dsimp only; rw [if_neg h])

theorem quality_bonus_ge (o r : Str) (s : ℚ) :
    s ≤ (match alookup (lower o) high_quality_replacements with
      | some rr => if lower r == rr then s + mkRat 1 10 else s
      | none => s) := by
  cases alookup (lower o) high_quality_replacements with
  | none => exact le_refl s
  | some rr =>
    dsimp only
    split
    · rw [mkRat_1_10]; exact le_add_of_nonneg_right (by norm_num)
    · exact le_refl s

theorem quality_score_bounds {o r : Str} {s : ℚ} (hs : mkRat 3 5 ≤ s) :
    0 ≤ calculate_quality_score o r s ∧ calculate_quality_score o r s ≤ 1 := by
  have hb := quality_bonus_ge o r s
  rw [mkRat_3_5] at hs
  simp only [calculate_quality_score]
  exact ⟨le_min (by linarith) zero_le_one, min_le_right _ _⟩

theorem filter_and_prioritize_mem_bound {word : Str} {sim : Str → Str → ℚ}
    (hb : ∀ w c, -1 ≤ sim w c ∧ sim w c ≤ 1) (pool : List Str) (cat : String) :
    ∀ p ∈ filter_and_prioritize word (pool.map (fun c => (c, sim word c))) cat,
      -(mkRat 13 10) ≤ p.2 ∧ p.2 ≤ mkRat 6 5 := by
  intro p hp
  unfold filter_and_prioritize at hp
  rw [mem_sortD] at hp
  rcases List.mem_map.1 hp with ⟨ws, hws, rfl⟩
  rcases List.mem_map.1 hws with ⟨c, _, rfl⟩
  obtain ⟨hlo, hhi⟩ := hb word c
  dsimp only
  rcases match_adjust_cases (alookup (lower word) proven_replacements) (lower c)
      (sim word c) (· + mkRat 1 5) with h1 | h1 <;>
    rw [h1] <;>
    [rcases match_adjust_cases (alookup (lower word) poor_replacements) (lower c)
        (sim word c) (· - mkRat 3 10) with h2 | h2;
     rcases match_adjust_cases (alookup (lower word) poor_replacements) (lower c)
        (sim word c + mkRat 1 5) (· - mkRat 3 10) with h2 | h2] <;>
    rw [h2] <;>
    constructor <;>
    simp only [mkRat_1_5, mkRat_3_10, mkRat_13_10, mkRat_6_5] <;>
    linarith

/-! ## Concrete evaluations -/

unseal Rat.add Rat.sub in
theorem c3ch_mem : c3ch ∈ (rewrite_text_with_bert simDeclined demoCatalog bertText).2 := by
  decide

theorem c4tc_mem : c4tc ∈ (rewrite_text demoCatalog tradText).2 := by
  decide

theorem m1fix_mem : m1fix ∈ detect_stigma demoCatalog tradText := by
  decide

unseal Rat.add Rat.sub in
theorem m3fix_mem : m3fix ∈ detect_stigma_with_bert simHalf demoCatalog tradText := by
  decide

unseal Rat.add Rat.sub in
theorem c3ch_score_eval : c3ch.similarity_score = mkRat 9 10 := by decide

unseal Rat.add Rat.sub in
theorem c2match_eval :
    bertChangeOf bertText c2match = some c3ch ∧
    c2match.bert_alternatives.map (·.1) =
      [ofS "declined", ofS "did not accept", ofS "chose not to",
        ofS "elected not to", ofS "was unable to"] := by
  decide

unseal Rat.add Rat.sub in
theorem c2_code_facts :
    (find_similar_neutral_alternatives simChoseNotTo demoCatalog (ofS "refused") 5).take 2 =
      [(ofS "chose not to", 1), (ofS "declined", mkRat 9 10)] ∧
    is_appropriate_replacement (ofS "refused") (ofS "chose not to") "compliance" 1
      bertText 8 = false ∧
    is_appropriate_replacement (ofS "refused") (ofS "declined") "compliance" (mkRat 9 10)
      bertText 8 = true ∧
    (rewrite_text_with_bert simChoseNotTo demoCatalog bertText).2 = [] := by
  decide

unseal Rat.add Rat.sub in
theorem c9_conf_eval : c9match.confidence = mkRat 23 20 := by decide

theorem c6_no_occurrence : hasKeywordOccurrence demoCatalog neutralText = false := by
  decide

theorem c7_code_facts :
    (analyze_text_complexity true (ofS "a. b. c. d")).recommended_method = "bert" ∧
    (analyze_text_complexity true (ofS "a. b. c. d")).word_count = 4 ∧
    auto_method true (ofS "a. b. c. d") = "traditional" := by
  constructor
  · rfl
  · exact ⟨rfl, rfl⟩

/-! ## Claims -/

/-- C1 (amended): `batch_process` performs no per-item error capture.  It maps
the per-item processor over the texts left to right: the first item whose
processing raises an error aborts the whole batch, which returns that bare
error and no per-item entries; only when every item succeeds does the batch
return the list of per-item results, in order. -/
theorem C1_batch_first_error_aborts {ε ρ : Type _} (p : Str → Except ε ρ)
    (texts : List Str) :
    (∀ t ∈ texts, ∀ e, p t = Except.error e →
      ∃ e', batch_process p texts = Except.error e') ∧
    (∀ rs, batch_process p texts = Except.ok rs →
      rs.length = texts.length ∧
      ∀ (i : Nat) (hi : i < texts.length) (hi' : i < rs.length),
        p (texts.get ⟨i, hi⟩) = Except.ok (rs.get ⟨i, hi'⟩)) :=
  ⟨fun t ht e he => batch_process_aborts p texts t e ht he,
   fun rs h => batch_process_ok_pointwise p texts rs h⟩

theorem C1_batch_witness :
    failP (ofS "bad") = Except.error "boom" ∧
    ∃ e', batch_process failP twoTexts = Except.error e' :=
  ⟨rfl, (C1_batch_first_error_aborts failP twoTexts).1 (ofS "bad") (by decide) "boom" rfl⟩

theorem C1_batch_cex :
    batch_process failP twoTexts = Except.error "boom" ∧
    (batch_process failP twoTexts).toOption = none :=
  ⟨rfl, rfl⟩

/-- C2 (amended): the similarity rewrite consults ONLY the top-ranked candidate
of each match: the change list consists, in descending match order, of exactly
the matches whose candidate list is nonempty and whose FIRST candidate passes
the accept gate; a lower-ranked candidate is never applied — when a change is
recorded, its replacement is the first candidate of its match's ranked list. -/
theorem C2_top_candidate_only (sim : Str → Str → ℚ) (catalog : Catalog) (t : Str) :
    (rewrite_text_with_bert sim catalog t).2 =
      (sortD (·.start_pos) (detect_stigma_with_bert sim catalog t)).filterMap
        (bertChangeOf t) ∧
    (∀ (m : BertMatch) (ch : BChange), bertChangeOf t m = some ch →
      ∃ score tl, m.bert_alternatives = (ch.replacement, score) :: tl) := by
  refine ⟨applyBert_changes t t _, fun m ch h => ?_⟩
  rcases bertChangeOf_inv h with ⟨best, score, tl, halt, -, -, hrepl, -, -, -⟩
  exact ⟨score, tl, by rw [hrepl]; exact halt⟩

theorem C2_witness :
    ∃ score tl, c2match.bert_alternatives = (c3ch.replacement, score) :: tl :=
  (C2_top_candidate_only simDeclined demoCatalog bertText).2 c2match c3ch c2match_eval.1

theorem C2_skips_accepted_lower_candidate :
    (find_similar_neutral_alternatives simChoseNotTo demoCatalog (ofS "refused") 5).take 2 =
      [(ofS "chose not to", 1), (ofS "declined", mkRat 9 10)] ∧
    is_appropriate_replacement (ofS "refused") (ofS "chose not to") "compliance" 1
      bertText 8 = false ∧
    is_appropriate_replacement (ofS "refused") (ofS "declined") "compliance" (mkRat 9 10)
      bertText 8 = true ∧
    (rewrite_text_with_bert simChoseNotTo demoCatalog bertText).2 = [] :=
  c2_code_facts

/-- C3: every change recorded by the similarity rewrite carries a similarity
score of at least 0.6: the accept gate rejects any candidate whose adjusted
score falls below the threshold, with no exception, so such a candidate is
never the applied replacement. -/
theorem C3_change_scores_above_threshold (sim : Str → Str → ℚ) (catalog : Catalog)
    (t : Str) :
    ∀ ch ∈ (rewrite_text_with_bert sim catalog t).2,
      mkRat 3 5 ≤ ch.similarity_score := by
  intro ch hch
  simp only [rewrite_text_with_bert, applyBert_changes] at hch
  rcases List.mem_filterMap.1 hch with ⟨m, _, hsome⟩
  rcases bertChangeOf_inv hsome with ⟨best, score, tl, -, hgate, -, -, -, hscore, -⟩
  rw [hscore]
  exact gate_score_ge hgate

theorem C3_witness : mkRat 3 5 ≤ c3ch.similarity_score :=
  C3_change_scores_above_threshold simDeclined demoCatalog bertText c3ch c3ch_mem

/-- C4: for every Change recorded by either rewrite pipeline, the slice of the
ORIGINAL (pre-rewrite) text at `[position, position + len(original))` equals
the recorded original text, even though replacements are spliced into a
progressively mutated string. -/
theorem C4_change_matches_original_text (catalog : Catalog) (t : Str)
    (sim : Str → Str → ℚ) :
    (∀ ch ∈ (rewrite_text catalog t).2,
      slice t ch.position (ch.position + ch.original.length) = ch.original) ∧
    (∀ ch ∈ (rewrite_text_with_bert sim catalog t).2,
      slice t ch.position (ch.position + ch.original.length) = ch.original) := by
  constructor
  · intro ch hch
    simp only [rewrite_text, applyRule_changes] at hch
    rcases List.mem_filterMap.1 hch with ⟨m, hm, hsome⟩
    rcases ruleChangeOf_inv hsome with ⟨horig, hpos⟩
    have hmem : m ∈ detect_stigma catalog t := (mem_sortD _ _ _).1 hm
    rcases detect_stigma_sound m hmem with ⟨hslice, hend⟩
    rw [horig, hpos, ← hend]
    exact hslice.symm
  · intro ch hch
    simp only [rewrite_text_with_bert, applyBert_changes] at hch
    rcases List.mem_filterMap.1 hch with ⟨m, hm, hsome⟩
    rcases bertChangeOf_inv hsome with ⟨best, score, tl, -, -, horig, -, hpos, -, -⟩
    have hmem : m ∈ detect_stigma_with_bert sim catalog t := (mem_sortD _ _ _).1 hm
    rcases detect_bert_sound m hmem with ⟨hslice, hend⟩
    rw [horig, hpos, ← hend]
    exact hslice.symm

theorem C4_witness :
    slice tradText c4tc.position (c4tc.position + c4tc.original.length) = c4tc.original ∧
    slice bertText c3ch.position (c3ch.position + c3ch.original.length) = c3ch.original :=
  ⟨(C4_change_matches_original_text demoCatalog tradText simDeclined).1 c4tc c4tc_mem,
   (C4_change_matches_original_text demoCatalog bertText simDeclined).2 c3ch c3ch_mem⟩

theorem boosted_eq_spec (word : Str) (ws : Str × ℚ) :
    (let s1 := match alookup (lower word) proven_replacements with
      | some l => if l.contains (lower ws.1) then ws.2 + mkRat 1 5 else ws.2
      | none => ws.2
     let s2 := match alookup (lower word) poor_replacements with
      | some l => if l.contains (lower ws.1) then s1 - mkRat 3 10 else s1
      | none => s1
     (ws.1, s2)) = (ws.1, specAdjustedScore word ws.1 ws.2) := by
  cases h1 : alookup (lower word) proven_replacements with
  | none =>
    cases h2 : alookup (lower word) poor_replacements with
    | none => simp [specAdjustedScore, provenB, poorB, h1, h2]
    | some l2 =>
      by_cases hc2 : lower ws.1 ∈ l2 <;>
        simp [specAdjustedScore, provenB, poorB, h1, h2, hc2]
  | some l1 =>
    cases h2 : alookup (lower word) poor_replacements with
    | none =>
      by_cases hc1 : lower ws.1 ∈ l1 <;>
        simp [specAdjustedScore, provenB, poorB, h1, h2, hc1]
    | some l2 =>
      by_cases hc1 : lower ws.1 ∈ l1 <;>
        by_cases hc2 : lower ws.1 ∈ l2 <;>
        simp [specAdjustedScore, provenB, poorB, h1, h2, hc1, hc2]

/-- C5: the candidate ranking applies the deterministic adjustment of the spec
(`specAdjustedScore`: exactly +0.2 when the original word's proven-replacements
list contains the candidate, exactly −0.3 when its poor-replacements list
does), sorts by descending adjusted score with ties keeping pool order (the
sort is stable: filtering any tie class commutes with it), and the adjustment
for `"adamant"`/`"firm"` is exactly the raw score plus 0.2. -/
theorem C5_ranking_adjustment (word : Str) (pairs : List (Str × ℚ)) (cat : String) :
    filter_and_prioritize word pairs cat =
      sortD (·.2) (pairs.map (fun ws => (ws.1, specAdjustedScore word ws.1 ws.2))) ∧
    (filter_and_prioritize word pairs cat).Pairwise (fun a b => b.2 ≤ a.2) ∧
    (∀ s : ℚ,
      (filter_and_prioritize word pairs cat).filter (fun p => decide (p.2 = s)) =
        (pairs.map (fun ws => (ws.1, specAdjustedScore word ws.1 ws.2))).filter
          (fun p => decide (p.2 = s))) ∧
    (∀ s : ℚ, specAdjustedScore (ofS "adamant") (ofS "firm") s = s + mkRat 1 5) := by
  have h1 : filter_and_prioritize word pairs cat =
      sortD (·.2) (pairs.map (fun ws => (ws.1, specAdjustedScore word ws.1 ws.2))) := by
    simp only [filter_and_prioritize]
    congr 1
    exact List.map_congr_left (fun ws _ => boosted_eq_spec word ws)
  refine ⟨h1, ?_, fun s => ?_, fun s => ?_⟩
  · rw [h1]; exact pairwise_sortD _ _
  · rw [h1, filter_sortD]
  · have hp : provenB (ofS "adamant") (ofS "firm") = true := by decide
    have hq : poorB (ofS "adamant") (ofS "firm") = false := by decide
    simp [specAdjustedScore, hp, hq]

/-- C6: a text in which no catalog pattern matches is returned unchanged:
the rewritten text equals the input, has-stigma is false, and the change list
is empty. -/
theorem C6_no_keyword_identity (catalog : Catalog) (t : Str)
    (h : hasKeywordOccurrence catalog t = false) :
    (process_note catalog t).rewritten_text = t ∧
    (process_note catalog t).has_stigma = false ∧
    (process_note catalog t).changes_made = [] := by
  have hd := detect_stigma_eq_nil h
  simp only [process_note, rewrite_text, get_stigma_categories]
  rw [hd]
  exact ⟨rfl, rfl, rfl⟩

theorem C6_witness :
    hasKeywordOccurrence demoCatalog neutralText = false ∧
    ((process_note demoCatalog neutralText).rewritten_text = neutralText ∧
     (process_note demoCatalog neutralText).has_stigma = false ∧
     (process_note demoCatalog neutralText).changes_made = []) :=
  ⟨c6_no_occurrence, C6_no_keyword_identity demoCatalog neutralText c6_no_occurrence⟩

/-- C7 (amended): the complexity analysis reports the whitespace-split word
count, the `'.'`-split sentence count, and words/sentences as the average; but
it recommends the similarity method exactly when the word count exceeds 20 OR
the sentence count exceeds 3 (and the BERT processor is available) — a strictly
weaker trigger than the 20-word threshold used by automatic method selection
(`auto_method`). -/
theorem C7_complexity_fields (bertAvail : Bool) (t : Str) :
    (analyze_text_complexity bertAvail t).word_count = (splitWs t).length ∧
    (analyze_text_complexity bertAvail t).sentence_count = (splitDot t).length ∧
    (analyze_text_complexity bertAvail t).avg_sentence_length =
      (if (splitDot t).length ≠ 0
        then ((splitWs t).length : ℚ) / ((splitDot t).length : ℚ) else 0) ∧
    (analyze_text_complexity bertAvail t).recommended_method =
      (if ((splitWs t).length > 20 ∨ (splitDot t).length > 3) ∧ bertAvail = true
        then "bert" else "traditional") := by
  simp only [analyze_text_complexity]
  by_cases hc : (splitWs t).length > 20 ∨ (splitDot t).length > 3 <;>
    cases bertAvail <;>
    simp [hc]

theorem C7_sentence_threshold_cex :
    (analyze_text_complexity true (ofS "a. b. c. d")).recommended_method = "bert" ∧
    (analyze_text_complexity true (ofS "a. b. c. d")).word_count = 4 ∧
    ¬ ((4:Nat) > 20) ∧
    auto_method true (ofS "a. b. c. d") = "traditional" :=
  ⟨c7_code_facts.1, c7_code_facts.2.1, by decide, c7_code_facts.2.2⟩

/-- C8: the hybrid method runs both pipelines (with the BERT processor
available), exposes both raw sub-results, and copies the similarity result's
fields exactly when its change count strictly exceeds the rule-based count
(ties go to the rule-based result). -/
theorem C8_hybrid_arbitration (sim : Str → Str → ℚ) (catalog : Catalog) (t : Str) :
    (process_hybrid true sim catalog t).traditional_result = process_note catalog t ∧
    (process_hybrid true sim catalog t).bert_result =
      some (process_note_bert sim catalog t) ∧
    ((process_hybrid true sim catalog t).primary_method = "bert" ↔
      (process_note_bert sim catalog t).num_changes >
        (process_note catalog t).num_changes) ∧
    (process_hybrid true sim catalog t).rewritten_text =
      (if (process_note_bert sim catalog t).num_changes >
          (process_note catalog t).num_changes
        then (process_note_bert sim catalog t).rewritten_text
        else (process_note catalog t).rewritten_text) ∧
    (process_hybrid true sim catalog t).has_stigma =
      (if (process_note_bert sim catalog t).num_changes >
          (process_note catalog t).num_changes
        then (process_note_bert sim catalog t).has_stigma
        else (process_note catalog t).has_stigma) ∧
    (process_hybrid true sim catalog t).stigma_categories =
      (if (process_note_bert sim catalog t).num_changes >
          (process_note catalog t).num_changes
        then (process_note_bert sim catalog t).stigma_categories
        else (process_note catalog t).stigma_categories) ∧
    (process_hybrid true sim catalog t).changes_made =
      (if (process_note_bert sim catalog t).num_changes >
          (process_note catalog t).num_changes
        then Sum.inr (process_note_bert sim catalog t).changes_made
        else Sum.inl (process_note catalog t).changes_made) ∧
    (process_hybrid true sim catalog t).num_changes =
      (if (process_note_bert sim catalog t).num_changes >
          (process_note catalog t).num_changes
        then (process_note_bert sim catalog t).num_changes
        else (process_note catalog t).num_changes) := by
  simp only [process_hybrid]
  by_cases hgt : (process_note_bert sim catalog t).num_changes >
      (process_note catalog t).num_changes <;>
    simp [hgt]

/-- C9 (amended): the rule pipeline's match confidence is exactly 1.0 and every
recorded Change's quality score lies in [0, 1]; but a similarity match's
confidence is the top candidate's boost-adjusted similarity, which need not lie
in [0, 1] — it is only bounded by [-1.3, 1.2] when raw similarities lie in
[-1, 1]. -/
theorem C9_score_ranges (sim : Str → Str → ℚ) (catalog : Catalog) (t : Str) :
    (∀ m ∈ detect_stigma catalog t, m.confidence = 1) ∧
    (∀ ch ∈ (rewrite_text_with_bert sim catalog t).2,
      0 ≤ ch.quality_score ∧ ch.quality_score ≤ 1) ∧
    ((∀ w c, -1 ≤ sim w c ∧ sim w c ≤ 1) →
      ∀ m ∈ detect_stigma_with_bert sim catalog t,
        -(mkRat 13 10) ≤ m.confidence ∧ m.confidence ≤ mkRat 6 5) := by
  refine ⟨?_, ?_, ?_⟩
  · intro m hm
    simp only [detect_stigma, List.mem_flatten, List.mem_map] at hm
    rcases hm with ⟨l, ⟨cw, _, rfl⟩, hl⟩
    rcases List.mem_map.1 hl with ⟨sl, _, rfl⟩
    rfl
  · intro ch hch
    simp only [rewrite_text_with_bert, applyBert_changes] at hch
    rcases List.mem_filterMap.1 hch with ⟨m, _, hsome⟩
    rcases bertChangeOf_inv hsome with ⟨best, score, tl, -, hgate, -, -, -, -, hq⟩
    rw [hq]
    exact quality_score_bounds (gate_score_ge hgate)
  · intro hb m hm
    simp only [detect_stigma_with_bert, List.mem_flatten, List.mem_map] at hm
    rcases hm with ⟨l, ⟨cw, _, rfl⟩, hl⟩
    rcases List.mem_map.1 hl with ⟨sl, _, rfl⟩
    dsimp only
    cases halt : (find_similar_neutral_alternatives sim catalog
        (slice t sl.1 (sl.1 + sl.2)) 5) with
    | nil =>
      constructor <;> norm_num [mkRat_13_10, mkRat_6_5, mkRat_1_2]
    | cons a tl =>
      have ha : a ∈ find_similar_neutral_alternatives sim catalog
          (slice t sl.1 (sl.1 + sl.2)) 5 := by
        rw [halt]; exact List.mem_cons_self a tl
      simp only [find_similar_neutral_alternatives] at ha
      have ha' := List.mem_of_mem_take ha
      exact filter_and_prioritize_mem_bound hb _ _ a ha'

theorem C9_witness :
    m1fix.confidence = 1 ∧
    (0 ≤ c3ch.quality_score ∧ c3ch.quality_score ≤ 1) ∧
    (-(mkRat 13 10) ≤ m3fix.confidence ∧ m3fix.confidence ≤ mkRat 6 5) :=
  ⟨(C9_score_ranges simDeclined demoCatalog tradText).1 m1fix m1fix_mem,
   (C9_score_ranges simDeclined demoCatalog bertText).2.1 c3ch c3ch_mem,
   (C9_score_ranges simHalf demoCatalog tradText).2.2
     (fun _ _ => ⟨by rw [simHalf, mkRat_1_2]; norm_num,
                  by rw [simHalf, mkRat_1_2]; norm_num⟩)
     m3fix m3fix_mem⟩

theorem C9_confidence_above_one :
    c9match.confidence = mkRat 23 20 ∧ ¬ (mkRat 23 20 ≤ (1:ℚ)) :=
  ⟨c9_conf_eval, by decide⟩

/-- C10: in both rewrite pipelines the recorded change list is ordered by
non-increasing start position — the change for the highest-offset match comes
first. -/
theorem C10_changes_descending (catalog : Catalog) (t : Str) (sim : Str → Str → ℚ) :
    (rewrite_text catalog t).2.Pairwise (fun a b => b.position ≤ a.position) ∧
    (rewrite_text_with_bert sim catalog t).2.Pairwise
      (fun a b => b.position ≤ a.position) := by
  constructor
  · simp only [rewrite_text, applyRule_changes]
    refine List.Pairwise.filterMap ruleChangeOf ?_ (pairwise_sortD (·.start_pos) _)
    intro m m' hmm' b hb b' hb'
    rcases ruleChangeOf_inv (Option.mem_def.1 hb) with ⟨-, hpos⟩
    rcases ruleChangeOf_inv (Option.mem_def.1 hb') with ⟨-, hpos'⟩
    rw [hpos, hpos']
    exact hmm'
  · simp only [rewrite_text_with_bert, applyBert_changes]
    refine List.Pairwise.filterMap (bertChangeOf t) ?_ (pairwise_sortD (·.start_pos) _)
    intro m m' hmm' b hb b' hb'
    rcases bertChangeOf_inv (Option.mem_def.1 hb) with ⟨_, _, _, -, -, -, -, hpos, -, -⟩
    rcases bertChangeOf_inv (Option.mem_def.1 hb') with ⟨_, _, _, -, -, -, -, hpos', -, -⟩
    rw [hpos, hpos']
    exact hmm'

end MedNeutral
